import Mathlib

/-!
Shallow embedding of the Renaissance-api Soroban contracts
(`src/contract/contracts/betting/src/lib.rs` and
`src/contract/contracts/player_card/src/{lib,storage}.rs`) together with
theorems settling the specification claims.

Modelling conventions:
* `BytesN<32>`, `BytesN<64>`, `Address` and `Symbol` values are modelled as
  natural numbers (only equality of these values matters to the contracts).
* Soroban persistent storage is modelled as an explicit record of the keys
  the betting contract uses (`DataKey` in the source); `soroban_sdk::Map`
  values are modelled as association lists with `amGet`/`amSet` mirroring
  `Map::get`/`Map::set` (replace-or-insert).
* `require_auth` is modelled by a list of addresses that have authorized the
  current invocation; a failed `require_auth`, and a failed external token
  transfer, abort the whole transaction (Soroban host trap, rolling back all
  writes of the call), modelled by the `Outcome.trap` constructor carrying no
  state.  An early `return Err(e)` is modelled by `Outcome.err e st` carrying
  the storage state at the point of return.
-/

abbrev Addr := Nat
abbrev B32 := Nat
abbrev B64 := Nat
abbrev SymName := Nat

/-- `common::ContractError` (`src/contract/contracts/common/src/errors.rs`),
extended with the three variants `SpinAlreadyExecuted`, `BetAlreadyPlaced`
and `SpinNotFound` that `betting/src/lib.rs` constructs. -/
inductive ContractError where
  | Unauthorized
  | InvalidAmount
  | InvalidBet
  | BetNotFound
  | BetAlreadySettled
  | InsufficientBalance
  | TransferFailed
  | InvalidStatus
  | SpinAlreadyExecuted
  | BetAlreadyPlaced
  | SpinNotFound
deriving DecidableEq, Repr

/-- Association-list lookup, mirroring `soroban_sdk::Map::get`. -/
def amGet {α β : Type} [DecidableEq α] : List (α × β) → α → Option β
  | [], _ => none
  | (k, v) :: rest, k0 => if k = k0 then some v else amGet rest k0

/-- Association-list replace-or-insert, mirroring `soroban_sdk::Map::set`. -/
def amSet {α β : Type} [DecidableEq α] : List (α × β) → α → β → List (α × β)
  | [], k0, v0 => [(k0, v0)]
  | (k, v) :: rest, k0, v0 =>
      if k = k0 then (k0, v0) :: rest else (k, v) :: amSet rest k0 v0

/-- `SpinExecution` record (betting/src/lib.rs lines 9–13). -/
structure SpinExecution where
  spin_id : B32
  executor : Addr
  timestamp : Nat
deriving DecidableEq, Repr

/-- `Bet` record (betting/src/lib.rs lines 17–24). -/
structure Bet where
  bettor : Addr
  amount : Int
  match_id : B32
  bet_type : SymName
  odds : Nat
  timestamp : Nat
deriving DecidableEq, Repr

/-- The persistent storage of the betting contract, one field per `DataKey`
variant (betting/src/lib.rs lines 27–33).  `Option` fields model keys that
may be absent; the two maps are read with `unwrap_or_else(Map::new)` in the
source, so an absent key behaves exactly like the empty list and the maps
are modelled directly. -/
structure BettingState where
  backendSigner : Option Addr
  usedSpinHashes : List (B32 × Bool)
  spinExecutions : List (B32 × SpinExecution)
  bets : List ((B32 × Addr) × Bet)
  preventDoubleBetting : Option Bool
deriving DecidableEq, Repr

/-- The storage state of a freshly deployed betting contract: no key set. -/
def bettingStart : BettingState :=
  { backendSigner := none
    usedSpinHashes := []
    spinExecutions := []
    bets := []
    preventDoubleBetting := none }

/-- Per-invocation host environment for the betting contract: the set of
addresses whose `require_auth` succeeds, the ledger timestamp, and whether
the external token transfer in `place_bet` succeeds. -/
structure BEnv where
  auths : List Addr
  timestamp : Nat
  transferOk : Bool
deriving DecidableEq, Repr

/-- `addr.require_auth()` succeeds in environment `env`. -/
def authorized (env : BEnv) (a : Addr) : Bool := env.auths.contains a

/-- Result of one betting-contract invocation: `trap` is a host panic
(failed `require_auth` or failed token transfer) that aborts and rolls back
the whole transaction; `err e st` is an early `return Err(e)` with storage
state `st` at that point; `ok st` is `Ok(())` with final storage state. -/
inductive Outcome where
  | trap
  | err : ContractError → BettingState → Outcome
  | ok : BettingState → Outcome
deriving DecidableEq, Repr

/-- `BettingContract::initialize` (betting/src/lib.rs lines 41–44): stores
the backend signer unconditionally — no re-initialization guard.  (Named
`init_betting` here; the source name collides with a reserved word.) -/
def init_betting (st : BettingState) (backend_signer : Addr) : BettingState :=
  { st with backendSigner := some backend_signer }

/-- `BettingContract::place_bet` (betting/src/lib.rs lines 47–101).
Returns the outcome together with the list of token transfers invoked,
each recorded as (token address, from, to-contract amount). -/
def place_bet (env : BEnv) (st : BettingState) (bettor : Addr)
    (token_address : Addr) (amount : Int) (match_id : B32) (bet_type : SymName)
    (odds : Nat) : Outcome × List (Addr × Addr × Int) :=
  if authorized env bettor then
    if amount ≤ 0 then (Outcome.err ContractError.InvalidAmount st, [])
    else
      let prevent_double : Bool := st.preventDoubleBetting.getD false
      if prevent_double ∧ (amGet st.bets (match_id, bettor)).isSome then
        (Outcome.err ContractError.BetAlreadyPlaced st, [])
      else
        -- token_client.transfer(bettor, contract, amount)
        if env.transferOk then
          let bet : Bet :=
            { bettor := bettor, amount := amount, match_id := match_id
              bet_type := bet_type, odds := odds, timestamp := env.timestamp }
          (Outcome.ok { st with bets := amSet st.bets (match_id, bettor) bet },
            [(token_address, bettor, amount)])
        else (Outcome.trap, [(token_address, bettor, amount)])
  else (Outcome.trap, [])

/-- `BettingContract::set_prevent_double_betting`
(betting/src/lib.rs lines 104–119): the backend signer is read first
(`ok_or(Unauthorized)`), then `admin.require_auth()`, then the equality
check. -/
def set_prevent_double_betting (env : BEnv) (st : BettingState) (admin : Addr)
    (prevent : Bool) : Outcome :=
  match st.backendSigner with
  | none => Outcome.err ContractError.Unauthorized st
  | some backend_signer =>
      if authorized env admin then
        if admin ≠ backend_signer then Outcome.err ContractError.Unauthorized st
        else Outcome.ok { st with preventDoubleBetting := some prevent }
      else Outcome.trap

/-- `BettingContract::is_double_betting_prevented`
(betting/src/lib.rs lines 122–124). -/
def is_double_betting_prevented (st : BettingState) : Bool :=
  st.preventDoubleBetting.getD false

/-- `BettingContract::execute_spin` (betting/src/lib.rs lines 137–203).
The `_signature` parameter is bound but never used by the source; the check
order is: executor auth, backend signer present, spin-hash replay check,
backend signer auth, spin-id duplicate check, then the two storage writes. -/
def execute_spin (env : BEnv) (st : BettingState) (spin_id : B32)
    (spin_hash : B32) (_signature : B64) (executor : Addr) : Outcome :=
  if authorized env executor then
    match st.backendSigner with
    | none => Outcome.err ContractError.Unauthorized st
    | some backend_signer =>
        if (amGet st.usedSpinHashes spin_hash).isSome then
          Outcome.err ContractError.SpinAlreadyExecuted st
        else if authorized env backend_signer then
          if (amGet st.spinExecutions spin_id).isSome then
            Outcome.err ContractError.SpinAlreadyExecuted st
          else
            let execution : SpinExecution :=
              { spin_id := spin_id, executor := executor
                timestamp := env.timestamp }
            let st1 :=
              { st with spinExecutions := amSet st.spinExecutions spin_id execution }
            let st2 :=
              { st1 with usedSpinHashes := amSet st1.usedSpinHashes spin_hash true }
            Outcome.ok st2
        else Outcome.trap
  else Outcome.trap

/-- `BettingContract::is_spin_executed` (betting/src/lib.rs lines 206–213). -/
def is_spin_executed (st : BettingState) (spin_id : B32) : Bool :=
  (amGet st.spinExecutions spin_id).isSome

/-- `BettingContract::get_spin_execution` (betting/src/lib.rs lines 216–223). -/
def get_spin_execution (st : BettingState) (spin_id : B32) :
    Except ContractError SpinExecution :=
  match amGet st.spinExecutions spin_id with
  | some e => Except.ok e
  | none => Except.error ContractError.SpinNotFound

/-- `BettingContract::is_spin_hash_used` (betting/src/lib.rs lines 226–233). -/
def is_spin_hash_used (st : BettingState) (spin_hash : B32) : Bool :=
  (amGet st.usedSpinHashes spin_hash).isSome

/-- One invocation of any state-mutating betting entry point, with its
arguments and host environment. -/
inductive BAct where
  | doInit (backend_signer : Addr)
  | doPlaceBet (env : BEnv) (bettor token_address : Addr) (amount : Int)
      (match_id : B32) (bet_type : SymName) (odds : Nat)
  | doSetPrevent (env : BEnv) (admin : Addr) (prevent : Bool)
  | doExecuteSpin (env : BEnv) (spin_id spin_hash : B32) (signature : B64)
      (executor : Addr)

/-- The storage state committed after an invocation with result `o` when
the pre-state was `st`: traps roll back, `Err`/`Ok` commit the carried
state. -/
def commit (st : BettingState) : Outcome → BettingState
  | Outcome.trap => st
  | Outcome.err _ s => s
  | Outcome.ok s => s

/-- The state transition function of the betting contract: run one entry
point and commit. -/
def bStep (st : BettingState) : BAct → BettingState
  | BAct.doInit a => init_betting st a
  | BAct.doPlaceBet env b t amt m bt o => commit st (place_bet env st b t amt m bt o).1
  | BAct.doSetPrevent env a p => commit st (set_prevent_double_betting env st a p)
  | BAct.doExecuteSpin env i h s x => commit st (execute_spin env st i h s x)

/-- A betting-contract state is reachable when some sequence of entry-point
invocations produces it from the fresh-deployment state. -/
def BReachable (st : BettingState) : Prop :=
  ∃ acts : List BAct, st = acts.foldl bStep bettingStart

/-! ## Player-card (NFT) contract, `player_card/src/{lib,storage,token}.rs` -/

abbrev Uri := Nat

/-- The instance storage of the player-card contract, one field per storage
key family in `player_card/src/storage.rs` (`ADMIN`, `NEXT_TOKEN_ID`,
`TOKEN_OWNER`, `TOKEN_URI`, `OWNER_TOKENS`) plus the `approval` keys of
`token.rs`. -/
structure CardState where
  admin : Option Addr
  nextTokenId : Option Nat
  owners : List (Nat × Addr)
  uris : List (Nat × Uri)
  ownerTokens : List (Addr × List Nat)
  approvals : List (Nat × Addr)
deriving DecidableEq, Repr

/-- Fresh-deployment storage of the player-card contract. -/
def cardStart : CardState :=
  { admin := none, nextTokenId := none, owners := [], uris := []
    ownerTokens := [], approvals := [] }

/-- `storage::get_next_token_id` (storage.rs lines 26–31): `unwrap_or(1)`. -/
def get_next_token_id (st : CardState) : Nat := st.nextTokenId.getD 1

/-- `storage::get_tokens_of_owner` (storage.rs lines 76–82):
`unwrap_or_else(Vec::new)`. -/
def get_tokens_of_owner (st : CardState) (owner : Addr) : List Nat :=
  (amGet st.ownerTokens owner).getD []

/-- `storage::add_token_to_owner` (storage.rs lines 84–89): `push_back`. -/
def add_token_to_owner (st : CardState) (owner : Addr) (token_id : Nat) :
    CardState :=
  { st with
    ownerTokens :=
      amSet st.ownerTokens owner (get_tokens_of_owner st owner ++ [token_id]) }

/-- Rust `Iterator::position`: index of the first element satisfying `p`. -/
def position (p : Nat → Bool) : List Nat → Option Nat
  | [] => none
  | x :: xs => if p x then some 0 else (position p xs).map (· + 1)

/-- `storage::remove_token_from_owner` (storage.rs lines 91–100): finds the
first index of `token_id` in the owner's token vector with
`iter().position`, removes it there, and writes the vector back; if the id
is absent the storage write is skipped entirely. -/
def remove_token_from_owner (st : CardState) (owner : Addr) (token_id : Nat) :
    CardState :=
  let tokens := get_tokens_of_owner st owner
  match position (fun id => id == token_id) tokens with
  | some index =>
      { st with ownerTokens := amSet st.ownerTokens owner (tokens.eraseIdx index) }
  | none => st

/-- `storage::set_owner` (storage.rs lines 52–61): if the token already has
an owner, first remove the id from that owner's vector; then store the new
owner and append the id to the new owner's vector. -/
def set_owner (st : CardState) (token_id : Nat) (owner : Addr) : CardState :=
  let st1 :=
    match amGet st.owners token_id with
    | some old_owner => remove_token_from_owner st old_owner token_id
    | none => st
  let st2 := { st1 with owners := amSet st1.owners token_id owner }
  add_token_to_owner st2 owner token_id

/-- `PlayerCardContract::initialize` (player_card/src/lib.rs lines 23–43):
panics (`none` here) when an admin is already stored; otherwise stores the
admin and sets the next token id to 1.  (Named `init_card` here; the source
name collides with a reserved word.) -/
def init_card (st : CardState) (admin : Addr) : Option CardState :=
  if st.admin.isSome then none
  else some { st with admin := some admin, nextTokenId := some 1 }

/-- `PlayerCardContract::mint` (player_card/src/lib.rs lines 46–72):
requires the stored admin's authorization, allocates the next token id,
increments the counter, sets owner and URI, and returns the id. -/
def mint (env : BEnv) (st : CardState) (dest : Addr) (token_uri : Uri) :
    Option (Nat × CardState) :=
  match st.admin with
  | none => none
  | some admin =>
      if authorized env admin then
        let token_id := get_next_token_id st
        let st1 := { st with nextTokenId := some (token_id + 1) }
        let st2 := set_owner st1 token_id dest
        let st3 := { st2 with uris := amSet st2.uris token_id token_uri }
        some (token_id, st3)
      else none

/-- `PlayerCardContract::transfer` (player_card/src/lib.rs lines 75–97):
requires `frm`'s authorization, panics (`none`) when the token has no owner
or the owner differs from `frm`, otherwise reassigns ownership via
`set_owner`. -/
def transfer (env : BEnv) (st : CardState) (frm dest : Addr) (token_id : Nat) :
    Option CardState :=
  if authorized env frm then
    match amGet st.owners token_id with
    | none => none
    | some current_owner =>
        if current_owner ≠ frm then none
        else some (set_owner st token_id dest)
  else none

/-- `PlayerCardContract::owner_of` via `storage::get_owner`
(storage.rs lines 44–50): panics (`none`) when the token is unknown. -/
def owner_of (st : CardState) (token_id : Nat) : Option Addr :=
  amGet st.owners token_id

/-- `PlayerCardContract::tokens_of_owner` (player_card/src/lib.rs
lines 115–117). -/
def tokens_of_owner (st : CardState) (owner : Addr) : List Nat :=
  get_tokens_of_owner st owner

/-- `PlayerCardToken::approve` (player_card/src/token.rs lines 22–28). -/
def approve (env : BEnv) (st : CardState) (approved : Addr) (token_id : Nat) :
    Option CardState :=
  match amGet st.owners token_id with
  | none => none
  | some owner =>
      if authorized env owner then
        some { st with approvals := amSet st.approvals token_id approved }
      else none

/-- One invocation of a state-mutating player-card entry point. -/
inductive CAct where
  | doInit (admin : Addr)
  | doMint (env : BEnv) (dest : Addr) (token_uri : Uri)
  | doTransfer (env : BEnv) (frm dest : Addr) (token_id : Nat)
  | doApprove (env : BEnv) (approved : Addr) (token_id : Nat)

/-- The state transition function of the player-card contract: a panicking
invocation (modelled `none`) leaves storage unchanged (host rollback). -/
def cStep (st : CardState) : CAct → CardState
  | CAct.doInit a => (init_card st a).getD st
  | CAct.doMint env dest u =>
      match mint env st dest u with
      | some (_, st2) => st2
      | none => st
  | CAct.doTransfer env f t id => (transfer env st f t id).getD st
  | CAct.doApprove env a id => (approve env st a id).getD st

/-- A player-card state is reachable when some sequence of entry-point
invocations produces it from the fresh-deployment state. -/
def CReachable (st : CardState) : Prop :=
  ∃ acts : List CAct, st = acts.foldl cStep cardStart

/-- Consistency of the owner index with the owner map: each token id occurs
exactly once in its owner's token vector and zero times in every other
vector; an unowned id occurs in no vector. -/
def ownerIndexConsistent (st : CardState) : Prop :=
  ∀ id : Nat, ∀ o2 : Addr,
    (tokens_of_owner st o2).count id =
      (if amGet st.owners id = some o2 then 1 else 0)

/-! ## Shared concrete instances used by witnesses -/

/-- An environment in which addresses 5 and 7 authorize and the token
transfer succeeds. -/
def env1 : BEnv := { auths := [5, 7], timestamp := 0, transferOk := true }

/-- Betting state after `initialize(5)` on a fresh deployment. -/
def stSigner : BettingState := init_betting bettingStart 5

/-- Betting state after `initialize(5)` followed by a successful
`execute_spin(1, 2, 0, 7)`. -/
def stExec : BettingState := commit stSigner (execute_spin env1 stSigner 1 2 0 7)

/-- An environment for the player-card witnesses: addresses 3 and 4
authorize. -/
def envC : BEnv := { auths := [3, 4], timestamp := 0, transferOk := true }

/-! ## General lemmas about the storage model -/

theorem amGet_amSet {α β : Type} [DecidableEq α] (m : List (α × β)) (k k0 : α) (v0 : β) :
    amGet (amSet m k0 v0) k = if k0 = k then some v0 else amGet m k := by
  induction m with
  | nil =>
      by_cases h : k0 = k <;> simp [amSet, amGet, h]
  | cons hd tl ih =>
      obtain ⟨k1, v1⟩ := hd
      by_cases h1 : k1 = k0
      · subst h1
        by_cases h2 : k1 = k <;> simp [amSet, amGet, h2]
      · by_cases h2 : k1 = k
        · subst h2
          have hne : ¬ k0 = k1 := fun h => h1 h.symm
          simp [amSet, amGet, h1, hne]
        · simp [amSet, amGet, h1, h2, ih]


/-! ## Claim theorems -/

/-- C7: the betting contract's `initialize` has no re-initialization guard —
a second call succeeds unconditionally and overwrites the stored backend
signer with the new address. -/
theorem C7_reinit_overwrites_signer (st : BettingState) (a b : Addr) :
    (init_betting (init_betting st a) b).backendSigner = some b := rfl

/-- C9: for every `amount ≤ 0` (bettor authorized), `place_bet` fails with
`InvalidAmount`, invokes no token transfer, and returns the storage state
unchanged. -/
theorem C9_place_bet_invalid_amount (env : BEnv) (st : BettingState)
    (bettor token_address : Addr) (amount : Int) (match_id : B32)
    (bet_type : SymName) (odds : Nat)
    (hauth : authorized env bettor = true) (hamt : amount ≤ 0) :
    place_bet env st bettor token_address amount match_id bet_type odds =
      (Outcome.err ContractError.InvalidAmount st, []) := by
  simp [place_bet, hauth, hamt]

/-- Witness for C9: a concrete zero-amount bet fails with `InvalidAmount`,
no transfer, state unchanged. -/
theorem C9_place_bet_invalid_amount_witness :
    place_bet env1 stSigner 7 9 0 1 2 3 =
      (Outcome.err ContractError.InvalidAmount stSigner, []) :=
  C9_place_bet_invalid_amount env1 stSigner 7 9 0 1 2 3 (by decide) (by decide)

/-- C2 (counterexample): `execute_spin` does not depend on the signature
argument — two different 64-byte values produce the identical successful
outcome on the same state, so no ed25519 verification of the supplied
signature can be taking place. -/
theorem C2_counterexample :
    execute_spin env1 stSigner 1 2 0 7 =
      Outcome.ok { backendSigner := some 5, usedSpinHashes := [(2, true)],
                   spinExecutions := [(1, { spin_id := 1, executor := 7, timestamp := 0 })],
                   bets := [], preventDoubleBetting := none }
    ∧ execute_spin env1 stSigner 1 2 999 7 =
      Outcome.ok { backendSigner := some 5, usedSpinHashes := [(2, true)],
                   spinExecutions := [(1, { spin_id := 1, executor := 7, timestamp := 0 })],
                   bets := [], preventDoubleBetting := none } := by
  constructor <;> rfl

/-- C2 (amended): `execute_spin` ignores its signature argument entirely —
its outcome is the same for any two signature values — and backend
authorization is enforced instead through the backend signer's
capability authorization (`require_auth`): with the executor authorized,
a backend signer configured and the spin hash fresh, a missing backend
authorization traps the call. -/
theorem C2_signature_ignored (env : BEnv) (st : BettingState) (i h : B32)
    (s1 s2 : B64) (x bs : Addr) :
    execute_spin env st i h s1 x = execute_spin env st i h s2 x
    ∧ (authorized env x = true → st.backendSigner = some bs →
        amGet st.usedSpinHashes h = none → authorized env bs = false →
        execute_spin env st i h s1 x = Outcome.trap) := by
  constructor
  · rfl
  · intro hx hbs hh hb
    simp [execute_spin, hx, hbs, hh, hb]

/-- Witness for C2 (amended): concrete instantiation in an environment where
the backend signer has not authorized the call. -/
theorem C2_signature_ignored_witness :
    execute_spin { auths := [7], timestamp := 0, transferOk := true } stSigner 1 2 0 7 =
      execute_spin { auths := [7], timestamp := 0, transferOk := true } stSigner 1 2 999 7
    ∧ execute_spin { auths := [7], timestamp := 0, transferOk := true } stSigner 1 2 0 7 =
      Outcome.trap :=
  ⟨(C2_signature_ignored { auths := [7], timestamp := 0, transferOk := true }
      stSigner 1 2 0 999 7 5).1,
   (C2_signature_ignored { auths := [7], timestamp := 0, transferOk := true }
      stSigner 1 2 0 999 7 5).2 (by decide) (by decide) (by decide) (by decide)⟩

/-- C8: `set_prevent_double_betting` fails with `Unauthorized` when no
backend signer is configured, and when the (authorized) admin differs from
the configured backend signer; when the admin is the backend signer and
self-authorizes, it succeeds, changes only the policy flag, and
`is_double_betting_prevented` subsequently reports the new flag. -/
theorem C8_set_prevent_double_betting (env : BEnv) (st : BettingState)
    (admin : Addr) (p : Bool) :
    (st.backendSigner = none →
      set_prevent_double_betting env st admin p =
        Outcome.err ContractError.Unauthorized st)
    ∧ (∀ bs : Addr, st.backendSigner = some bs → admin ≠ bs →
        authorized env admin = true →
        set_prevent_double_betting env st admin p =
          Outcome.err ContractError.Unauthorized st)
    ∧ (st.backendSigner = some admin → authorized env admin = true →
        set_prevent_double_betting env st admin p =
          Outcome.ok { st with preventDoubleBetting := some p }
        ∧ is_double_betting_prevented { st with preventDoubleBetting := some p } = p) := by
  refine ⟨?_, ?_, ?_⟩
  · intro hn
    simp [set_prevent_double_betting, hn]
  · intro bs hbs hne hauth
    simp [set_prevent_double_betting, hbs, hauth, hne]
  · intro hbs hauth
    refine ⟨?_, ?_⟩
    · simp [set_prevent_double_betting, hbs, hauth]
    · simp [is_double_betting_prevented]

/-- Witness for C8: the configured backend signer (address 5) flips the
flag on; an unrelated admin (address 7) is rejected. -/
theorem C8_set_prevent_double_betting_witness :
    set_prevent_double_betting env1 stSigner 7 true =
      Outcome.err ContractError.Unauthorized stSigner
    ∧ set_prevent_double_betting env1 stSigner 5 true =
      Outcome.ok { stSigner with preventDoubleBetting := some true } :=
  ⟨(C8_set_prevent_double_betting env1 stSigner 7 true).2.1 5 (by decide) (by decide) (by decide),
   ((C8_set_prevent_double_betting env1 stSigner 5 true).2.2 (by decide) (by decide)).1⟩

/-- C6: with the double-betting-prevention flag on and a bet already stored
for (match_id, bettor), `place_bet` fails with `BetAlreadyPlaced`; with the
flag off (the default), `place_bet` succeeds regardless of an existing bet
and the stored bet for that key becomes the one just placed. -/
theorem C6_double_betting_policy (env : BEnv) (st : BettingState)
    (bettor token_address : Addr) (amount : Int) (match_id : B32)
    (bet_type : SymName) (odds : Nat)
    (hauth : authorized env bettor = true) (hamt : 0 < amount) :
    (is_double_betting_prevented st = true →
      (amGet st.bets (match_id, bettor)).isSome = true →
      place_bet env st bettor token_address amount match_id bet_type odds =
        (Outcome.err ContractError.BetAlreadyPlaced st, []))
    ∧ (is_double_betting_prevented st = false → env.transferOk = true →
        (place_bet env st bettor token_address amount match_id bet_type odds).1 =
          Outcome.ok { st with bets := amSet st.bets (match_id, bettor) ⟨bettor, amount, match_id, bet_type, odds, env.timestamp⟩ }
        ∧ amGet (amSet st.bets (match_id, bettor) ⟨bettor, amount, match_id, bet_type, odds, env.timestamp⟩) (match_id, bettor) =
            some ⟨bettor, amount, match_id, bet_type, odds, env.timestamp⟩) := by
  have hamt2 : ¬ amount ≤ 0 := by omega
  constructor
  · intro hflag hbet
    simp only [is_double_betting_prevented] at hflag
    simp [place_bet, hauth, hamt2, hflag, hbet]
  · intro hflag htr
    simp only [is_double_betting_prevented] at hflag
    constructor
    · simp [place_bet, hauth, hamt2, hflag, htr]
    · simp [amGet_amSet]

/-- Witness for C6: on a state with prevention enabled and a bet stored for
(1, 7), a second bet by 7 on match 1 fails with `BetAlreadyPlaced`; on the
fresh state (prevention defaulted off) the same call succeeds. -/
theorem C6_double_betting_policy_witness :
    place_bet env1 { stSigner with preventDoubleBetting := some true, bets := [((1, 7), ⟨7, 2, 1, 2, 3, 0⟩)] } 7 9 2 1 2 3 =
      (Outcome.err ContractError.BetAlreadyPlaced { stSigner with preventDoubleBetting := some true, bets := [((1, 7), ⟨7, 2, 1, 2, 3, 0⟩)] }, [])
    ∧ (place_bet env1 stSigner 7 9 2 1 2 3).1 =
        Outcome.ok { stSigner with bets := amSet stSigner.bets (1, 7) ⟨7, 2, 1, 2, 3, 0⟩ } :=
  ⟨(C6_double_betting_policy env1 { stSigner with preventDoubleBetting := some true, bets := [((1, 7), ⟨7, 2, 1, 2, 3, 0⟩)] } 7 9 2 1 2 3 (by decide) (by decide)).1 (by decide) (by decide),
   ((C6_double_betting_policy env1 stSigner 7 9 2 1 2 3 (by decide) (by decide)).2 (by decide) (by decide)).1⟩

/-- C1: on any reachable state with a backend signer configured and all
required authorizations present, `execute_spin` fails with
`SpinAlreadyExecuted` whenever the spin id already has a recorded execution
or the spin hash was already consumed (by any execution), and succeeds
whenever neither holds. -/
theorem C1_execute_spin_replay (env : BEnv) (st : BettingState) (i h : B32)
    (s : B64) (x bs : Addr)
    (_hreach : BReachable st)
    (hbs : st.backendSigner = some bs)
    (hx : authorized env x = true)
    (hb : authorized env bs = true) :
    ((is_spin_executed st i = true ∨ is_spin_hash_used st h = true) →
      execute_spin env st i h s x =
        Outcome.err ContractError.SpinAlreadyExecuted st)
    ∧ (is_spin_executed st i = false → is_spin_hash_used st h = false →
        execute_spin env st i h s x =
          Outcome.ok { st with
            spinExecutions := amSet st.spinExecutions i ⟨i, x, env.timestamp⟩,
            usedSpinHashes := amSet st.usedSpinHashes h true }) := by
  constructor
  · rintro (hid | hh)
    · simp only [is_spin_executed] at hid
      by_cases hhash : (amGet st.usedSpinHashes h).isSome
      · simp [execute_spin, hx, hbs, hhash]
      · simp [execute_spin, hx, hbs, hhash, hb, hid]
    · simp only [is_spin_hash_used] at hh
      simp [execute_spin, hx, hbs, hh]
  · intro hid hh
    simp only [is_spin_executed, Bool.not_eq_true] at hid
    simp only [is_spin_hash_used, Bool.not_eq_true] at hh
    simp [execute_spin, hx, hbs, hh, hb, hid]

/-- Witness for C1: on the reachable state with spin 1 / hash 2 executed,
re-executing spin 1 under a fresh hash fails with `SpinAlreadyExecuted`,
and a fresh spin id with a fresh hash succeeds. -/
theorem C1_execute_spin_replay_witness :
    execute_spin env1 stExec 1 3 0 7 =
      Outcome.err ContractError.SpinAlreadyExecuted stExec
    ∧ execute_spin env1 stExec 4 3 0 7 =
      Outcome.ok { stExec with
        spinExecutions := amSet stExec.spinExecutions 4 ⟨4, 7, 0⟩,
        usedSpinHashes := amSet stExec.usedSpinHashes 3 true } :=
  ⟨(C1_execute_spin_replay env1 stExec 1 3 0 7 5
      ⟨[BAct.doInit 5, BAct.doExecuteSpin env1 1 2 0 7], rfl⟩
      (by decide) (by decide) (by decide)).1 (Or.inl (by decide)),
   (C1_execute_spin_replay env1 stExec 4 3 0 7 5
      ⟨[BAct.doInit 5, BAct.doExecuteSpin env1 1 2 0 7], rfl⟩
      (by decide) (by decide) (by decide)).2 (by decide) (by decide)⟩

/-- C3: every erroring invocation of a betting entry point returns the
storage state unchanged, and a successful `execute_spin` implies both the
spin-id check and the spin-hash check passed on the pre-state (so both
checks precede every mutation). -/
theorem C3_error_no_mutation :
    (∀ (env : BEnv) (st : BettingState) (i h : B32) (s : B64) (x : Addr)
        (e : ContractError) (st2 : BettingState),
      execute_spin env st i h s x = Outcome.err e st2 → st2 = st)
    ∧ (∀ (env : BEnv) (st : BettingState) (b t : Addr) (amt : Int) (m : B32)
        (bt : SymName) (o : Nat) (e : ContractError) (st2 : BettingState),
      (place_bet env st b t amt m bt o).1 = Outcome.err e st2 → st2 = st)
    ∧ (∀ (env : BEnv) (st : BettingState) (a : Addr) (p : Bool)
        (e : ContractError) (st2 : BettingState),
      set_prevent_double_betting env st a p = Outcome.err e st2 → st2 = st)
    ∧ (∀ (env : BEnv) (st : BettingState) (i h : B32) (s : B64) (x : Addr)
        (st2 : BettingState),
      execute_spin env st i h s x = Outcome.ok st2 →
      is_spin_executed st i = false ∧ is_spin_hash_used st h = false) := by
  refine ⟨?_, ?_, ?_, ?_⟩
  · intro env st i h s x e st2 hres
    unfold execute_spin at hres
    repeat' split at hres
    all_goals simp_all
  · intro env st b t amt m bt o e st2 hres
    unfold place_bet at hres
    dsimp only at hres
    repeat' split at hres
    all_goals simp_all
  · intro env st a p e st2 hres
    unfold set_prevent_double_betting at hres
    repeat' split at hres
    all_goals simp_all
  · intro env st i h s x st2 hres
    unfold execute_spin at hres
    repeat' split at hres
    all_goals simp_all [is_spin_executed, is_spin_hash_used]

/-- Witness for C3: a concrete erroring call (no backend signer configured)
leaves the fresh state unchanged. -/
theorem C3_error_no_mutation_witness :
    execute_spin env1 bettingStart 1 2 0 7 =
      Outcome.err ContractError.Unauthorized bettingStart
    ∧ bettingStart = bettingStart :=
  ⟨by decide,
   C3_error_no_mutation.1 env1 bettingStart 1 2 0 7
     ContractError.Unauthorized bettingStart (by decide)⟩

/-! ## Step lemmas for the betting state machine (shared by C4 and C5) -/

theorem commit_place_bet_fields (env : BEnv) (st : BettingState) (b t : Addr)
    (amt : Int) (m : B32) (bt : SymName) (o : Nat) :
    (commit st (place_bet env st b t amt m bt o).1).spinExecutions = st.spinExecutions
    ∧ (commit st (place_bet env st b t amt m bt o).1).usedSpinHashes = st.usedSpinHashes := by
  by_cases h1 : authorized env b = true
  · by_cases h2 : amt ≤ 0
    · simp [place_bet, h1, h2, commit]
    · by_cases h3 : st.preventDoubleBetting.getD false = true ∧ (amGet st.bets (m, b)).isSome = true
      · simp [place_bet, h1, h2, h3, commit]
      · by_cases h4 : env.transferOk = true
        · simp [place_bet, h1, h2, h3, h4, commit]
        · simp [place_bet, h1, h2, h3, h4, commit]
  · simp [place_bet, h1, commit]

theorem commit_set_prevent_fields (env : BEnv) (st : BettingState) (a : Addr)
    (p : Bool) :
    (commit st (set_prevent_double_betting env st a p)).spinExecutions = st.spinExecutions
    ∧ (commit st (set_prevent_double_betting env st a p)).usedSpinHashes = st.usedSpinHashes := by
  cases hbs : st.backendSigner with
  | none => simp [set_prevent_double_betting, hbs, commit]
  | some bs =>
      by_cases h1 : authorized env a = true
      · by_cases h2 : a = bs
        · subst h2
          simp [set_prevent_double_betting, hbs, h1, commit]
        · simp [set_prevent_double_betting, hbs, h1, h2, commit]
      · simp [set_prevent_double_betting, hbs, h1, commit]

/-- Either `execute_spin` commits no change, or it succeeds having found
both the spin id and the spin hash fresh, and the committed state extends
the two maps with exactly the new entries. -/
theorem commit_execute_spin_cases (env : BEnv) (st : BettingState) (i h : B32)
    (s : B64) (x : Addr) :
    commit st (execute_spin env st i h s x) = st
    ∨ (amGet st.spinExecutions i = none ∧ amGet st.usedSpinHashes h = none
       ∧ execute_spin env st i h s x =
          Outcome.ok { st with
            spinExecutions := amSet st.spinExecutions i ⟨i, x, env.timestamp⟩,
            usedSpinHashes := amSet st.usedSpinHashes h true }) := by
  by_cases hx : authorized env x = true
  · cases hbs : st.backendSigner with
    | none => left; simp [execute_spin, hx, hbs, commit]
    | some bs =>
        by_cases hh : (amGet st.usedSpinHashes h).isSome = true
        · left; simp [execute_spin, hx, hbs, hh, commit]
        · by_cases hb : authorized env bs = true
          · by_cases hi : (amGet st.spinExecutions i).isSome = true
            · left; simp [execute_spin, hx, hbs, hh, hb, hi, commit]
            · right
              refine ⟨?_, ?_, ?_⟩
              · exact Option.not_isSome_iff_eq_none.mp hi
              · exact Option.not_isSome_iff_eq_none.mp hh
              · simp [execute_spin, hx, hbs, hh, hb, hi]
          · left; simp [execute_spin, hx, hbs, hh, hb, commit]
  · left; simp [execute_spin, hx, commit]

theorem spinExec_mono_step (st : BettingState) (a : BAct) (i : B32)
    (e : SpinExecution) (hget : amGet st.spinExecutions i = some e) :
    amGet (bStep st a).spinExecutions i = some e := by
  cases a with
  | doInit b => simpa [bStep, init_betting] using hget
  | doPlaceBet env b t amt m bt o =>
      rw [bStep, (commit_place_bet_fields env st b t amt m bt o).1]
      exact hget
  | doSetPrevent env b p =>
      rw [bStep, (commit_set_prevent_fields env st b p).1]
      exact hget
  | doExecuteSpin env i2 h2 s2 x2 =>
      rcases commit_execute_spin_cases env st i2 h2 s2 x2 with hc | ⟨hnone, _, hok⟩
      · rw [bStep, hc]; exact hget
      · rw [bStep, hok]
        by_cases hii : i2 = i
        · subst hii
          rw [hget] at hnone
          cases hnone
        · simp [commit, amGet_amSet, hii, hget]

theorem usedHash_mono_step (st : BettingState) (a : BAct) (h : B32)
    (v : Bool) (hget : amGet st.usedSpinHashes h = some v) :
    amGet (bStep st a).usedSpinHashes h = some v := by
  cases a with
  | doInit b => simpa [bStep, init_betting] using hget
  | doPlaceBet env b t amt m bt o =>
      rw [bStep, (commit_place_bet_fields env st b t amt m bt o).2]
      exact hget
  | doSetPrevent env b p =>
      rw [bStep, (commit_set_prevent_fields env st b p).2]
      exact hget
  | doExecuteSpin env i2 h2 s2 x2 =>
      rcases commit_execute_spin_cases env st i2 h2 s2 x2 with hc | ⟨_, hnone, hok⟩
      · rw [bStep, hc]; exact hget
      · rw [bStep, hok]
        by_cases hhh : h2 = h
        · subst hhh
          rw [hget] at hnone
          cases hnone
        · simp [commit, amGet_amSet, hhh, hget]

theorem spinExec_mono_foldl (st : BettingState) (acts : List BAct) (i : B32)
    (e : SpinExecution) (hget : amGet st.spinExecutions i = some e) :
    amGet (acts.foldl bStep st).spinExecutions i = some e := by
  induction acts generalizing st with
  | nil => exact hget
  | cons a rest ih => exact ih (bStep st a) (spinExec_mono_step st a i e hget)

theorem usedHash_mono_foldl (st : BettingState) (acts : List BAct) (h : B32)
    (v : Bool) (hget : amGet st.usedSpinHashes h = some v) :
    amGet (acts.foldl bStep st).usedSpinHashes h = some v := by
  induction acts generalizing st with
  | nil => exact hget
  | cons a rest ih => exact ih (bStep st a) (usedHash_mono_step st a h v hget)

/-- C4: a successful `execute_spin(i, h, s, x)` makes `is_spin_executed i`
and `is_spin_hash_used h` true and records a `SpinExecution` with executor
`x` and the ledger timestamp; `is_spin_executed i` is permanent under any
further invocation sequence; and it can only flip from false to true
through a successful `execute_spin` for that very spin id. -/
theorem C4_spin_execution_lifecycle :
    (∀ (env : BEnv) (st : BettingState) (i h : B32) (s : B64) (x : Addr)
        (st2 : BettingState),
      execute_spin env st i h s x = Outcome.ok st2 →
      is_spin_executed st2 i = true ∧ is_spin_hash_used st2 h = true ∧
      get_spin_execution st2 i = Except.ok ⟨i, x, env.timestamp⟩)
    ∧ (∀ (st : BettingState) (acts : List BAct) (i : B32),
      is_spin_executed st i = true →
      is_spin_executed (acts.foldl bStep st) i = true)
    ∧ (∀ (st : BettingState) (a : BAct) (i : B32),
      is_spin_executed st i = false →
      is_spin_executed (bStep st a) i = true →
      ∃ (env : BEnv) (h : B32) (s : B64) (x : Addr) (st2 : BettingState),
        a = BAct.doExecuteSpin env i h s x ∧
        execute_spin env st i h s x = Outcome.ok st2) := by
  refine ⟨?_, ?_, ?_⟩
  · intro env st i h s x st2 hres
    unfold execute_spin at hres
    repeat' split at hres
    all_goals cases hres
    all_goals simp_all [is_spin_executed, is_spin_hash_used,
      get_spin_execution, amGet_amSet]
  · intro st acts i hT
    simp only [is_spin_executed, Option.isSome_iff_exists] at hT ⊢
    obtain ⟨e, he⟩ := hT
    exact ⟨e, spinExec_mono_foldl st acts i e he⟩
  · intro st a i hfalse htrue
    cases a with
    | doInit b => simp_all [bStep, init_betting, is_spin_executed]
    | doPlaceBet env b t amt m bt o =>
        rw [bStep] at htrue
        simp only [is_spin_executed] at htrue hfalse
        rw [(commit_place_bet_fields env st b t amt m bt o).1] at htrue
        rw [hfalse] at htrue
        cases htrue
    | doSetPrevent env b p =>
        rw [bStep] at htrue
        simp only [is_spin_executed] at htrue hfalse
        rw [(commit_set_prevent_fields env st b p).1] at htrue
        rw [hfalse] at htrue
        cases htrue
    | doExecuteSpin env i2 h2 s2 x2 =>
        rcases commit_execute_spin_cases env st i2 h2 s2 x2 with hc | ⟨_, _, hok⟩
        · rw [bStep, hc] at htrue
          rw [htrue] at hfalse
          cases hfalse
        · by_cases hii : i2 = i
          · subst hii
            exact ⟨env, h2, s2, x2, _, rfl, hok⟩
          · rw [bStep, hok] at htrue
            simp only [is_spin_executed, commit, amGet_amSet, hii,
              if_false] at htrue
            simp only [is_spin_executed] at hfalse
            rw [hfalse] at htrue
            cases htrue

/-- Witness for C4: the concrete successful execution recorded in `stExec`
satisfies all three postconditions. -/
theorem C4_spin_execution_lifecycle_witness :
    is_spin_executed stExec 1 = true ∧ is_spin_hash_used stExec 2 = true ∧
    get_spin_execution stExec 1 = Except.ok ⟨1, 7, 0⟩ :=
  C4_spin_execution_lifecycle.1 env1 stSigner 1 2 0 7 stExec (by decide)

/-- C5: spin-execution records and used-spin-hash markers are permanent and
immutable — once present with a given value they keep exactly that value
across every invocation sequence; a record appears only through a
successful `execute_spin` of that spin id, with the recorded executor and
ledger timestamp; and a successful execution requires its spin hash to be
unconsumed, so each hash is consumed by at most one execution ever. -/
theorem C5_records_permanent :
    (∀ (st : BettingState) (acts : List BAct) (i : B32) (e : SpinExecution),
      amGet st.spinExecutions i = some e →
      amGet (acts.foldl bStep st).spinExecutions i = some e)
    ∧ (∀ (st : BettingState) (acts : List BAct) (h : B32) (v : Bool),
      amGet st.usedSpinHashes h = some v →
      amGet (acts.foldl bStep st).usedSpinHashes h = some v)
    ∧ (∀ (st : BettingState) (a : BAct) (i : B32) (e : SpinExecution),
      amGet st.spinExecutions i = none →
      amGet (bStep st a).spinExecutions i = some e →
      ∃ (env : BEnv) (h : B32) (s : B64) (x : Addr),
        a = BAct.doExecuteSpin env i h s x ∧
        execute_spin env st i h s x =
          Outcome.ok { st with
            spinExecutions := amSet st.spinExecutions i ⟨i, x, env.timestamp⟩,
            usedSpinHashes := amSet st.usedSpinHashes h true } ∧
        e = ⟨i, x, env.timestamp⟩)
    ∧ (∀ (env : BEnv) (st : BettingState) (i h : B32) (s : B64) (x : Addr)
        (st2 : BettingState),
      execute_spin env st i h s x = Outcome.ok st2 →
      is_spin_hash_used st h = false) := by
  refine ⟨?_, ?_, ?_, ?_⟩
  · exact spinExec_mono_foldl
  · exact usedHash_mono_foldl
  · intro st a i e hnone hsome
    cases a with
    | doInit b =>
        rw [bStep] at hsome
        simp only [init_betting] at hsome
        rw [hnone] at hsome
        cases hsome
    | doPlaceBet env b t amt m bt o =>
        rw [bStep, (commit_place_bet_fields env st b t amt m bt o).1] at hsome
        rw [hnone] at hsome
        cases hsome
    | doSetPrevent env b p =>
        rw [bStep, (commit_set_prevent_fields env st b p).1] at hsome
        rw [hnone] at hsome
        cases hsome
    | doExecuteSpin env i2 h2 s2 x2 =>
        rcases commit_execute_spin_cases env st i2 h2 s2 x2 with hc | ⟨_, _, hok⟩
        · rw [bStep, hc] at hsome
          rw [hnone] at hsome
          cases hsome
        · by_cases hii : i2 = i
          · subst hii
            rw [bStep, hok] at hsome
            simp [commit, amGet_amSet] at hsome
            refine ⟨env, h2, s2, x2, rfl, hok, ?_⟩
            simp [hsome]
          · rw [bStep, hok] at hsome
            simp only [commit, amGet_amSet, hii, if_false] at hsome
            rw [hnone] at hsome
            cases hsome
  · intro env st i h s x st2 hres
    unfold execute_spin at hres
    repeat' split at hres
    all_goals simp_all [is_spin_hash_used]

/-- Witness for C5: the record stored in `stExec` survives a further
re-initialization step with its exact value. -/
theorem C5_records_permanent_witness :
    amGet (([BAct.doInit 9].foldl bStep stExec)).spinExecutions 1 =
      some ⟨1, 7, 0⟩ :=
  C5_records_permanent.1 stExec [BAct.doInit 9] 1 ⟨1, 7, 0⟩ (by decide)

/-! ## Owner-index lemmas for the player-card contract (C10) -/

/-- Removing at the position of the first occurrence is `List.erase`
(and when the element is absent, the list is unchanged). -/
theorem eraseIdx_position_eq_erase (l : List Nat) (a : Nat) :
    (match position (fun x => x == a) l with
     | some i => l.eraseIdx i
     | none => l) = l.erase a := by
  induction l with
  | nil => rfl
  | cons b t ih =>
      by_cases hba : b = a
      · subst hba
        simp [position, List.erase_cons]
      · have hba2 : (b == a) = false := by simp [hba]
        simp only [position, hba2, Bool.false_eq_true, if_false, List.erase_cons]
        cases hp : position (fun x => x == a) t with
        | none =>
            rw [hp] at ih
            simp only [hp, Option.map_none']
            rw [← ih]
        | some i =>
            rw [hp] at ih
            simp only [hp, Option.map_some', List.eraseIdx_cons_succ]
            rw [← ih]

theorem owners_remove (st : CardState) (o : Addr) (id : Nat) :
    (remove_token_from_owner st o id).owners = st.owners := by
  unfold remove_token_from_owner
  dsimp only
  cases hp : position (fun x => x == id) (get_tokens_of_owner st o) with
  | some i => rfl
  | none => rfl

theorem tokensOf_remove (st : CardState) (o : Addr) (id : Nat) (o2 : Addr) :
    tokens_of_owner (remove_token_from_owner st o id) o2 =
      if o = o2 then (tokens_of_owner st o2).erase id
      else tokens_of_owner st o2 := by
  have hbridge := eraseIdx_position_eq_erase (get_tokens_of_owner st o) id
  unfold remove_token_from_owner
  dsimp only
  cases hp : position (fun x => x == id) (get_tokens_of_owner st o) with
  | some i =>
      rw [hp] at hbridge
      simp only at hbridge
      dsimp only
      by_cases ho : o = o2
      · subst ho
        simp only [tokens_of_owner, get_tokens_of_owner, amGet_amSet, if_pos rfl]
        exact hbridge
      · simp only [tokens_of_owner, get_tokens_of_owner, amGet_amSet]
        simp [ho]
  | none =>
      rw [hp] at hbridge
      simp only at hbridge
      dsimp only
      by_cases ho : o = o2
      · subst ho
        rw [if_pos rfl]
        exact hbridge
      · rw [if_neg ho]

theorem owners_add (st : CardState) (o : Addr) (id : Nat) :
    (add_token_to_owner st o id).owners = st.owners := rfl

theorem tokensOf_add (st : CardState) (o : Addr) (id : Nat) (o2 : Addr) :
    tokens_of_owner (add_token_to_owner st o id) o2 =
      if o = o2 then tokens_of_owner st o2 ++ [id]
      else tokens_of_owner st o2 := by
  simp only [tokens_of_owner, get_tokens_of_owner, add_token_to_owner, amGet_amSet]
  by_cases ho : o = o2
  · subst ho
    simp
  · simp [ho]

theorem tokensOf_owners_update (st : CardState) (w : List (Nat × Addr))
    (o2 : Addr) :
    tokens_of_owner { st with owners := w } o2 = tokens_of_owner st o2 := rfl

theorem owners_set_owner (st : CardState) (id : Nat) (o : Addr) :
    (set_owner st id o).owners = amSet st.owners id o := by
  unfold set_owner
  cases h : amGet st.owners id with
  | none => dsimp only; rw [owners_add]
  | some old => dsimp only; rw [owners_add]; rw [owners_remove]

theorem tokensOf_set_owner (st : CardState) (id : Nat) (o o2 : Addr) :
    tokens_of_owner (set_owner st id o) o2 =
      (if o = o2
        then (match amGet st.owners id with
              | some old =>
                  if old = o2 then (tokens_of_owner st o2).erase id
                  else tokens_of_owner st o2
              | none => tokens_of_owner st o2) ++ [id]
        else (match amGet st.owners id with
              | some old =>
                  if old = o2 then (tokens_of_owner st o2).erase id
                  else tokens_of_owner st o2
              | none => tokens_of_owner st o2)) := by
  unfold set_owner
  cases h : amGet st.owners id with
  | none =>
      dsimp only
      rw [tokensOf_add, tokensOf_owners_update]
  | some old =>
      dsimp only
      rw [tokensOf_add, tokensOf_owners_update, tokensOf_remove]

theorem set_owner_preserves (st : CardState) (id : Nat) (o : Addr)
    (hinv : ownerIndexConsistent st) :
    ownerIndexConsistent (set_owner st id o) := by
  intro id2 o2
  rw [tokensOf_set_owner, owners_set_owner, amGet_amSet]
  cases h : amGet st.owners id with
  | none =>
      dsimp only
      by_cases hi : id = id2
      · subst hi
        have h0 : (tokens_of_owner st o2).count id = 0 := by
          have hx := hinv id o2
          rw [h] at hx
          simpa using hx
        by_cases ho : o = o2
        · subst ho
          simp [List.count_append, h0]
        · simp [ho, h0]
      · have hbase := hinv id2 o2
        rw [if_neg hi]
        by_cases ho : o = o2
        · subst ho
          simp [List.count_append, List.count_singleton, Ne.symm hi, hbase]
        · simp [ho, hbase]
  | some old =>
      dsimp only
      by_cases hi : id = id2
      · subst hi
        have hcnt := hinv id o2
        rw [h] at hcnt
        have hbase0 :
            (if old = o2 then (tokens_of_owner st o2).erase id
             else tokens_of_owner st o2).count id = 0 := by
          by_cases hold : old = o2
          · subst hold
            rw [if_pos rfl, List.count_erase_self]
            simp at hcnt
            omega
          · rw [if_neg hold]
            have : ¬ (some old = some o2) := by simp [hold]
            rw [if_neg this] at hcnt
            exact hcnt
        by_cases ho : o = o2
        · subst ho
          simp [List.count_append, hbase0]
        · simp [ho, hbase0]
      · have hbase := hinv id2 o2
        rw [if_neg hi]
        have hkeep :
            (if old = o2 then (tokens_of_owner st o2).erase id
             else tokens_of_owner st o2).count id2 =
              (tokens_of_owner st o2).count id2 := by
          by_cases hold : old = o2
          · rw [if_pos hold, List.count_erase_of_ne (fun hx => hi hx.symm)]
          · rw [if_neg hold]
        by_cases ho : o = o2
        · subst ho
          simp [List.count_append, List.count_singleton, Ne.symm hi, hkeep, hbase]
        · simp [ho, hkeep, hbase]

theorem inv_congr (st st2 : CardState) (ho : st2.owners = st.owners)
    (ht : st2.ownerTokens = st.ownerTokens)
    (hinv : ownerIndexConsistent st) : ownerIndexConsistent st2 := by
  intro id o2
  have hx := hinv id o2
  simp only [tokens_of_owner, get_tokens_of_owner] at hx ⊢
  rw [ht, ho]
  exact hx

theorem inv_uris_update (st : CardState) (w : List (Nat × Uri))
    (h : ownerIndexConsistent st) :
    ownerIndexConsistent { st with uris := w } :=
  inv_congr st _ rfl rfl h

theorem inv_nextTokenId_update (st : CardState) (n : Option Nat)
    (h : ownerIndexConsistent st) :
    ownerIndexConsistent { st with nextTokenId := n } :=
  inv_congr st _ rfl rfl h

theorem inv_admin_init_update (st : CardState) (a : Addr)
    (h : ownerIndexConsistent st) :
    ownerIndexConsistent { st with admin := some a, nextTokenId := some 1 } :=
  inv_congr st _ rfl rfl h

theorem inv_approvals_update (st : CardState) (w : List (Nat × Addr))
    (h : ownerIndexConsistent st) :
    ownerIndexConsistent { st with approvals := w } :=
  inv_congr st _ rfl rfl h

theorem cardStart_consistent : ownerIndexConsistent cardStart := by
  intro id o2
  simp [tokens_of_owner, get_tokens_of_owner, cardStart, amGet]

theorem cStep_preserves (st : CardState) (a : CAct)
    (hinv : ownerIndexConsistent st) : ownerIndexConsistent (cStep st a) := by
  cases a with
  | doInit ad =>
      rw [cStep]
      unfold init_card
      by_cases h : st.admin.isSome = true
      · simp only [h, if_true, Option.getD_none]
        exact hinv
      · simp only [h, if_false, Option.getD_some]
        exact inv_admin_init_update st ad hinv
  | doMint env dest u =>
      rw [cStep]
      cases hadmin : st.admin with
      | none => simp only [mint, hadmin]; exact hinv
      | some ad =>
          by_cases hauth : authorized env ad = true
          · simp only [mint, hadmin, hauth, if_true]
            rw [← hadmin]
            have h1 := inv_nextTokenId_update st (some (get_next_token_id st + 1)) hinv
            have h2 := set_owner_preserves _ (get_next_token_id st) dest h1
            exact inv_uris_update _ _ h2
          · simp only [mint, hadmin, hauth, if_false]
            exact hinv
  | doTransfer env f t id =>
      rw [cStep]
      unfold transfer
      by_cases hauth : authorized env f = true
      · cases hown : amGet st.owners id with
        | none => simp only [hauth, hown, if_true, Option.getD_none]; exact hinv
        | some cur =>
            by_cases hcur : cur ≠ f
            · simp only [hauth, hown, if_true]
              rw [if_pos hcur]
              exact hinv
            · simp only [hauth, hown, if_true]
              rw [if_neg hcur]
              exact set_owner_preserves _ _ _ hinv
      · simp only [hauth, if_false]; exact hinv
  | doApprove env ap id =>
      rw [cStep]
      unfold approve
      cases hown : amGet st.owners id with
      | none => simp only [hown]; exact hinv
      | some ow =>
          by_cases hauth : authorized env ow = true
          · simp only [hown, hauth, if_true, Option.getD_some]
            exact inv_approvals_update st _ hinv
          · simp only [hown, hauth, if_false]
            exact hinv

theorem foldl_cStep_preserves (acts : List CAct) (st : CardState)
    (hinv : ownerIndexConsistent st) :
    ownerIndexConsistent (acts.foldl cStep st) := by
  induction acts generalizing st with
  | nil => exact hinv
  | cons a rest ih => exact ih (cStep st a) (cStep_preserves st a hinv)

/-- C10: in every reachable player-card state the owner index is consistent
with the owner map — every owned token id occurs exactly once in its
owner's token list and in no other address's list, and unowned ids occur
in no list; mint and transfer (via `set_owner`, which removes the id from
the previous owner's list and appends it to the new owner's) preserve
this. -/
theorem C10_owner_index_consistent (st : CardState) (hr : CReachable st) :
    ownerIndexConsistent st := by
  obtain ⟨acts, hst⟩ := hr
  subst hst
  exact foldl_cStep_preserves acts cardStart cardStart_consistent

/-- Witness for C10: the invariant holds on the concrete reachable state
obtained by initializing with admin 3, minting token 1 to address 4, and
transferring it to address 6. -/
theorem C10_owner_index_consistent_witness :
    ownerIndexConsistent
      ([CAct.doInit 3, CAct.doMint envC 4 0,
        CAct.doTransfer envC 4 6 1].foldl cStep cardStart) :=
  C10_owner_index_consistent _
    ⟨[CAct.doInit 3, CAct.doMint envC 4 0, CAct.doTransfer envC 4 6 1], rfl⟩
